import Mathlib

/-!
Verification of the Remoulade Redis rate-limiter backend
(`src/remoulade/rate_limits/backends/redis.py`).

The backend exposes four counter operations against a Redis key-value
store: `add`, `incr`, `decr` and `incr_and_sum`.  We give a shallow
embedding of one sequential pass of each operation.  The Redis
`WATCH`/`MULTI`/`EXEC` retry loop only matters under concurrent
interference: in a sequential run `pipe.execute()` never raises
`WatchError`, so the body of each `while True` loop runs exactly once
and its effect on the store is the single conditional write modelled
here.  `pipe.watch(...)` itself has no effect on the stored data.

Stored bytes are modelled by which way Python `int()` treats them:
`Content.intVal n` stands for a byte string that `int()` parses as the
integer `n` (in particular everything the backend itself writes, since
`pipe.set(key, value, ...)` stores the decimal representation of the
Python int `value`); `Content.emptyVal` stands for the empty byte
string `b""` (falsy, so `pipe.get(key) or b"0"` turns it into `b"0"`,
and the generator filter `if n` skips it); `Content.malformed` stands
for any non-empty byte string that `int()` rejects with `ValueError`.
A raised `ValueError` is modelled as `Except.error ()`: the Python code
catches only `redis.WatchError`, so a `ValueError` propagates out of
the operation.
-/

namespace RemouladeRedis

/-- The three behaviourally distinct classes of byte strings a counter
key can hold, classified by Python `int()`: a parsable integer, the
empty byte string, or non-empty unparsable bytes. -/
inductive Content where
  | intVal (n : Int)
  | emptyVal
  | malformed
  deriving DecidableEq, Repr

/-- The Redis string keyspace: each present key holds some bytes
(`Content`) and the TTL in milliseconds set by the last write (`px=ttl`). -/
abbrev Store := String → Option (Content × Int)

/-- `pipe.get k` / one slot of `pipe.mget`: the stored bytes, or `none`
when the key is absent (Redis returns nil, Python sees `None`). -/
def Store.get (s : Store) (k : String) : Option Content :=
  (s k).map Prod.fst

/-- `pipe.set(key, value, px=ttl)` inside the committed transaction:
the key now holds `c` with time-to-live `ttl`; other keys are untouched. -/
def Store.set (s : Store) (key : String) (c : Content) (ttl : Int) : Store :=
  fun k => if k = key then some (c, ttl) else s k

/-- `int(pipe.get(key) or b"0")`: absence and the empty byte string are
read as 0, a parsable value as itself, and unparsable bytes raise
`ValueError` (modelled as `Except.error ()`). -/
def readInt (s : Store) (key : String) : Except Unit Int :=
  match Store.get s key with
  | none => .ok 0
  | some Content.emptyVal => .ok 0
  | some (Content.intVal n) => .ok n
  | some Content.malformed => .error ()

/-- `self.client.set(key, value, px=ttl, nx=True)` wrapped in `bool`:
writes only if the key is absent (Redis `NX`), returning whether the
write took effect, paired with the resulting store. -/
def add (s : Store) (key : String) (value ttl : Int) : Bool × Store :=
  match s key with
  | none => (true, Store.set s key (Content.intVal value) ttl)
  | some _ => (false, s)

/-- One sequential pass of `RedisBackend.incr`: read the current value
(absence as 0), add `amount`, deny without writing if the result
exceeds `maximum`, otherwise commit the new value with `ttl`. -/
def incr (s : Store) (key : String) (amount maximum ttl : Int) :
    Except Unit (Bool × Store) :=
  match readInt s key with
  | .error e => .error e
  | .ok current =>
    let value := current + amount
    if value > maximum then .ok (false, s)
    else .ok (true, Store.set s key (Content.intVal value) ttl)

/-- One sequential pass of `RedisBackend.decr`: read the current value
(absence as 0), subtract `amount`, deny without writing if the result
falls below `minimum`, otherwise commit the new value with `ttl`. -/
def decr (s : Store) (key : String) (amount minimum ttl : Int) :
    Except Unit (Bool × Store) :=
  match readInt s key with
  | .error e => .error e
  | .ok current =>
    let value := current - amount
    if value < minimum then .ok (false, s)
    else .ok (true, Store.set s key (Content.intVal value) ttl)

/-- The `keys` argument of `incr_and_sum`: either a literal list or a
callable producing a list.  A callable may yield different lists on its
successive invocations (e.g. time-bucketed keys), so it is modelled as
a function of the invocation index: invocation number `i` returns
`f i`. -/
inductive KeysArg where
  | static (ks : List String)
  | callable (f : Nat → List String)

/-- `keys() if callable(keys) else keys`, for the `n`-th invocation of
the callable. -/
def KeysArg.resolve : KeysArg → Nat → List String
  | .static ks, _ => ks
  | .callable f, n => f n

/-- `callable(keys)`. -/
def KeysArg.isCallable : KeysArg → Bool
  | .static _ => false
  | .callable _ => true

/-- `sum(int(n) for n in values if n)` over the list returned by
`pipe.mget`: absent slots (`None`) and empty byte strings are falsy
and skipped, parsable values are summed, and unparsable bytes raise
`ValueError` (modelled as `Except.error ()`). -/
def sumCounters : List (Option Content) → Except Unit Int
  | [] => .ok 0
  | v :: rest =>
    match v with
    | none => sumCounters rest
    | some Content.emptyVal => sumCounters rest
    | some (Content.intVal n) =>
      match sumCounters rest with
      | .error e => .error e
      | .ok r => .ok (n + r)
    | some Content.malformed => .error ()

/-- The observable outcome of one sequential pass of `incr_and_sum`:
the boolean result, the resulting store, how many times the `keys`
callable was invoked, and whether the `pipe.mget` of the sibling keys
was executed. -/
structure AggResult where
  ret : Bool
  store : Store
  providerCalls : Nat
  siblingsRead : Bool

/-- One sequential pass of `RedisBackend.incr_and_sum`.  The key list
is resolved once up front for `pipe.watch(key, *key_list)` (the watch
itself has no effect on the stored data, but a callable `keys` is
invoked for it), the primary key is read and `amount` added; if that
already exceeds `maximum` the call denies without touching the sibling
keys.  Otherwise the key list is resolved a second time, `pipe.mget`
reads all of those keys, and the call denies if `amount` plus their sum
exceeds `maximum`; otherwise the primary key alone is written with its
incremented value and `ttl`. -/
def incr_and_sum (s : Store) (key : String) (keys : KeysArg)
    (amount maximum ttl : Int) : Except Unit AggResult :=
  -- key_list = keys() if callable(keys) else keys; pipe.watch(key, *key_list).
  -- The resolved list is only ever passed to the watch, which does not touch
  -- the stored data, so its value is unused here; the invocation itself is
  -- what remains observable, counted by callsAfterWatch.
  let _keyList := KeysArg.resolve keys 0
  let callsAfterWatch : Nat := if keys.isCallable then 1 else 0
  match readInt s key with
  | .error e => .error e
  | .ok current =>
    let value := current + amount
    if value > maximum then .ok ⟨false, s, callsAfterWatch, false⟩
    else
      -- values = pipe.mget(keys() if callable(keys) else keys)
      let calls : Nat := if keys.isCallable then callsAfterWatch + 1 else callsAfterWatch
      let ks2 := KeysArg.resolve keys 1
      match sumCounters (ks2.map (Store.get s)) with
      | .error e => .error e
      | .ok siblings =>
        let total := amount + siblings
        if total > maximum then .ok ⟨false, s, calls, true⟩
        else .ok ⟨true, Store.set s key (Content.intVal value) ttl, calls, true⟩

/-! ### General lemmas about the embedding, shared by the claim theorems. -/

lemma get_set_self (s : Store) (key : String) (c : Content) (ttl : Int) :
    Store.get (Store.set s key c ttl) key = some c := by
  simp [Store.get, Store.set]

lemma get_set_ne (s : Store) (key k : String) (c : Content) (ttl : Int)
    (h : k ≠ key) : Store.get (Store.set s key c ttl) k = Store.get s k := by
  simp [Store.get, Store.set, h]

/-- Characterization of one pass of `incr` when the stored value parses. -/
lemma incr_eq (s : Store) (key : String) (amount maximum ttl current : Int)
    (h : readInt s key = .ok current) :
    incr s key amount maximum ttl =
      (if current + amount > maximum then .ok (false, s)
       else .ok (true, Store.set s key (Content.intVal (current + amount)) ttl)) := by
  unfold incr
  rw [h]

/-- Characterization of one pass of `decr` when the stored value parses. -/
lemma decr_eq (s : Store) (key : String) (amount minimum ttl current : Int)
    (h : readInt s key = .ok current) :
    decr s key amount minimum ttl =
      (if current - amount < minimum then .ok (false, s)
       else .ok (true, Store.set s key (Content.intVal (current - amount)) ttl)) := by
  unfold decr
  rw [h]

/-- Characterization of one pass of `incr_and_sum` when the primary
value parses and the mget sum parses. -/
lemma incr_and_sum_eq (s : Store) (key : String) (keys : KeysArg)
    (amount maximum ttl current siblings : Int)
    (hc : readInt s key = .ok current)
    (hs : sumCounters ((KeysArg.resolve keys 1).map (Store.get s)) = .ok siblings) :
    incr_and_sum s key keys amount maximum ttl =
      (if current + amount > maximum then
        .ok ⟨false, s, (if keys.isCallable then 1 else 0), false⟩
       else if amount + siblings > maximum then
        .ok ⟨false, s, (if keys.isCallable then 2 else 0), true⟩
       else
        .ok ⟨true, Store.set s key (Content.intVal (current + amount)) ttl,
             (if keys.isCallable then 2 else 0), true⟩) := by
  cases keys with
  | static ks =>
    simp only [KeysArg.resolve] at hs
    by_cases h1 : current + amount > maximum
    · simp [incr_and_sum, hc, h1, KeysArg.isCallable]
    · by_cases h2 : amount + siblings > maximum <;>
        simp [incr_and_sum, hc, hs, h1, h2, KeysArg.resolve, KeysArg.isCallable]
  | callable f =>
    simp only [KeysArg.resolve] at hs
    by_cases h1 : current + amount > maximum
    · simp [incr_and_sum, hc, h1, KeysArg.isCallable]
    · by_cases h2 : amount + siblings > maximum <;>
        simp [incr_and_sum, hc, hs, h1, h2, KeysArg.resolve, KeysArg.isCallable]

/-- When the stored primary value does not parse, one pass of `incr`
propagates the `ValueError`. -/
lemma incr_error (s : Store) (key : String) (amount maximum ttl : Int)
    (e : Unit) (hc : readInt s key = .error e) :
    incr s key amount maximum ttl = .error e := by
  unfold incr
  rw [hc]

/-- When the stored primary value does not parse, one pass of `decr`
propagates the `ValueError`. -/
lemma decr_error (s : Store) (key : String) (amount minimum ttl : Int)
    (e : Unit) (hc : readInt s key = .error e) :
    decr s key amount minimum ttl = .error e := by
  unfold decr
  rw [hc]

/-- Characterization of one pass of `incr_and_sum` when the primary
value does not parse: the `ValueError` propagates. -/
lemma incr_and_sum_error (s : Store) (key : String) (keys : KeysArg)
    (amount maximum ttl : Int) (e : Unit) (hc : readInt s key = .error e) :
    incr_and_sum s key keys amount maximum ttl = .error e := by
  simp [incr_and_sum, hc]

/-- The early-rejection path of `incr_and_sum`: when the primary value
plus `amount` already exceeds `maximum`, the pass denies with the store
unchanged and without executing the mget, for any `keys` argument,
whatever the sibling keys hold. -/
lemma incr_and_sum_early (s : Store) (key : String) (keys : KeysArg)
    (amount maximum ttl current : Int)
    (hc : readInt s key = .ok current) (h1 : current + amount > maximum) :
    incr_and_sum s key keys amount maximum ttl =
      .ok ⟨false, s, (if keys.isCallable then 1 else 0), false⟩ := by
  simp [incr_and_sum, hc, h1]

/-- When the early rejection does not fire and the mget sum raises, one
pass of `incr_and_sum` propagates the `ValueError`. -/
lemma incr_and_sum_sum_error (s : Store) (key : String) (keys : KeysArg)
    (amount maximum ttl current : Int) (e : Unit)
    (hc : readInt s key = .ok current) (h1 : ¬ current + amount > maximum)
    (hs : sumCounters ((KeysArg.resolve keys 1).map (Store.get s)) = .error e) :
    incr_and_sum s key keys amount maximum ttl = .error e := by
  simp [incr_and_sum, hc, h1, hs]

/-- If any key in the mget list holds unparsable bytes, the sum raises. -/
lemma sumCounters_malformed (s : Store) (ks : List String) (k : String)
    (hk : k ∈ ks) (hm : Store.get s k = some Content.malformed) :
    sumCounters (ks.map (Store.get s)) = .error () := by
  induction ks with
  | nil => cases hk
  | cons a rest ih =>
    rcases List.mem_cons.mp hk with rfl | hmem
    · simp [sumCounters, hm]
    · have hrest := ih hmem
      simp only [List.map_cons, sumCounters]
      cases hv : Store.get s a with
      | none => simpa [hv] using hrest
      | some c =>
        cases c with
        | intVal n => simp [hrest]
        | emptyVal => simpa using hrest
        | malformed => simp

/-- Replacing the stored value of a key outside the mget list does not
change the sum. -/
lemma sumCounters_set_not_mem (s : Store) (ks : List String) (key : String)
    (c : Content) (ttl : Int) (hk : key ∉ ks) :
    sumCounters (ks.map (Store.get (Store.set s key c ttl))) =
      sumCounters (ks.map (Store.get s)) := by
  induction ks with
  | nil => rfl
  | cons a rest ih =>
    have ha : a ≠ key := fun h => hk (h ▸ List.mem_cons_self a rest)
    have hrest : key ∉ rest := fun h => hk (List.mem_cons_of_mem a h)
    simp only [List.map_cons, sumCounters, get_set_ne s key a c ttl ha, ih hrest]

/-! ### Claim theorems -/

/-- Claim C1: one pass of `incr` reads the current value of `key`
treating absence as 0, computes `newValue = current + amount`, returns
false with no effect when `newValue > maximum`, and otherwise writes
`newValue` with the given `ttl` and returns true; the bound is
inclusive: when `newValue` equals `maximum` the write is committed. -/
theorem incr_bounded_increment (s : Store) (key : String)
    (amount maximum ttl current : Int) (h : readInt s key = .ok current) :
    (Store.get s key = none → current = 0) ∧
    incr s key amount maximum ttl =
      (if current + amount > maximum then .ok (false, s)
       else .ok (true, Store.set s key (Content.intVal (current + amount)) ttl)) ∧
    (current + amount = maximum →
      incr s key amount maximum ttl =
        .ok (true, Store.set s key (Content.intVal maximum) ttl)) := by
  refine ⟨?_, incr_eq s key amount maximum ttl current h, ?_⟩
  · intro hnone
    simp [readInt, hnone] at h
    omega
  · intro heq
    rw [incr_eq s key amount maximum ttl current h, heq]
    simp

/-- Witness for C1: on the empty store, incrementing "k" by 2 with
maximum 5 commits and stores 2. -/
theorem incr_bounded_increment_witness :
    incr (fun _ => none) "k" 2 5 1000 =
      .ok (true, Store.set (fun _ => none) "k" (Content.intVal 2) 1000) := by
  have h := incr_bounded_increment (fun _ => none) "k" 2 5 1000 0 rfl
  rw [h.2.1]
  norm_num

/-- Claim C5: one pass of `decr` computes `newValue = current - amount`
(absence read as 0), denies with no write when `newValue < minimum`
(the minimum itself is allowed and committed), and otherwise writes
`newValue` with the given `ttl` and returns true. -/
theorem decr_bounded_decrement (s : Store) (key : String)
    (amount minimum ttl current : Int) (h : readInt s key = .ok current) :
    (Store.get s key = none → current = 0) ∧
    decr s key amount minimum ttl =
      (if current - amount < minimum then .ok (false, s)
       else .ok (true, Store.set s key (Content.intVal (current - amount)) ttl)) := by
  refine ⟨?_, decr_eq s key amount minimum ttl current h⟩
  intro hnone
  simp [readInt, hnone] at h
  omega

/-- Witness for C5, the spec example: with "k" holding 3, decrementing
by 5 with minimum 0 denies and the store is unchanged, so "k" still
holds 3. -/
theorem decr_bounded_decrement_witness :
    decr (fun k => if k = "k" then some (Content.intVal 3, 50) else none)
        "k" 5 0 1000 =
      .ok (false, fun k => if k = "k" then some (Content.intVal 3, 50) else none) ∧
    Store.get (fun k => if k = "k" then some (Content.intVal 3, 50) else none) "k" =
      some (Content.intVal 3) := by
  have h := decr_bounded_decrement
    (fun k => if k = "k" then some (Content.intVal 3, 50) else none) "k" 5 0 1000 3 rfl
  refine ⟨?_, rfl⟩
  rw [h.2]
  norm_num

/-- Claim C2 as stated is false at this input: with the primary key
"p" holding 100, an empty sibling list, amount 1 and maximum 10, the
aggregate total is 1 + 0 = 1 ≤ 10, yet the pass returns false with no
write — the early rejection on the primary value (100 + 1 > 10) fires
before the total is ever considered, so "total ≤ maximum implies a
committing true return" does not hold. -/
theorem incr_and_sum_total_only_counterexample :
    incr_and_sum (fun k => if k = "p" then some (Content.intVal 100, 50) else none)
        "p" (KeysArg.static []) 1 10 1000 =
      .ok ⟨false, fun k => if k = "p" then some (Content.intVal 100, 50) else none,
           0, false⟩ ∧
    sumCounters (([] : List String).map
        (Store.get (fun k => if k = "p" then some (Content.intVal 100, 50) else none))) =
      .ok 0 ∧
    (1 : Int) + 0 ≤ 10 := by
  refine ⟨rfl, rfl, by norm_num⟩

/-- Claim C2 amended: one pass of `incr_and_sum` denies with no write
when the aggregate total `amount + sum(sibling values)` exceeds
`maximum` OR when already the primary increment `current + amount`
exceeds `maximum` (early rejection, which skips the sibling read);
otherwise it writes only the primary key — set to its prior value plus
`amount`, with the given `ttl`, every other key unchanged — and
returns true.  The spec example holds: with "p" absent and siblings
4 and 3 under maximum 10, amount 5 denies leaving "p" absent and
amount 2 commits leaving "p" holding 2 (see the witness). -/
theorem incr_and_sum_aggregate_bound (s : Store) (key : String) (keys : KeysArg)
    (amount maximum ttl current siblings : Int)
    (hc : readInt s key = .ok current)
    (hs : sumCounters ((KeysArg.resolve keys 1).map (Store.get s)) = .ok siblings) :
    incr_and_sum s key keys amount maximum ttl =
      (if current + amount > maximum then
        .ok ⟨false, s, (if keys.isCallable then 1 else 0), false⟩
       else if amount + siblings > maximum then
        .ok ⟨false, s, (if keys.isCallable then 2 else 0), true⟩
       else
        .ok ⟨true, Store.set s key (Content.intVal (current + amount)) ttl,
             (if keys.isCallable then 2 else 0), true⟩) ∧
    (∀ k2, k2 ≠ key →
      Store.get (Store.set s key (Content.intVal (current + amount)) ttl) k2 =
        Store.get s k2) :=
  ⟨incr_and_sum_eq s key keys amount maximum ttl current siblings hc hs,
   fun k2 hk2 => get_set_ne s key k2 (Content.intVal (current + amount)) ttl hk2⟩

/-- Witness for C2 (the spec's aggregate-bound example): with "p"
absent, "s1" holding 4 and "s2" holding 3, maximum 10: amount 5 denies
with the store unchanged (so "p" stays absent), and amount 2 commits
writing "p" = 2. -/
theorem incr_and_sum_aggregate_bound_witness :
    incr_and_sum
        (fun k => if k = "s1" then some (Content.intVal 4, 50)
                  else if k = "s2" then some (Content.intVal 3, 50) else none)
        "p" (KeysArg.static ["s1", "s2"]) 5 10 1000 =
      .ok ⟨false,
           fun k => if k = "s1" then some (Content.intVal 4, 50)
                    else if k = "s2" then some (Content.intVal 3, 50) else none,
           0, true⟩ ∧
    incr_and_sum
        (fun k => if k = "s1" then some (Content.intVal 4, 50)
                  else if k = "s2" then some (Content.intVal 3, 50) else none)
        "p" (KeysArg.static ["s1", "s2"]) 2 10 1000 =
      .ok ⟨true,
           Store.set
             (fun k => if k = "s1" then some (Content.intVal 4, 50)
                       else if k = "s2" then some (Content.intVal 3, 50) else none)
             "p" (Content.intVal 2) 1000,
           0, true⟩ := by
  constructor
  · have h := incr_and_sum_aggregate_bound
      (fun k => if k = "s1" then some (Content.intVal 4, 50)
                else if k = "s2" then some (Content.intVal 3, 50) else none)
      "p" (KeysArg.static ["s1", "s2"]) 5 10 1000 0 7 rfl rfl
    rw [h.1]
    norm_num [KeysArg.isCallable]
  · have h := incr_and_sum_aggregate_bound
      (fun k => if k = "s1" then some (Content.intVal 4, 50)
                else if k = "s2" then some (Content.intVal 3, 50) else none)
      "p" (KeysArg.static ["s1", "s2"]) 2 10 1000 0 7 rfl rfl
    rw [h.1]
    norm_num [KeysArg.isCallable]

/-- Claim C3 as stated is false at this input: when the resolved key
list contains the primary key itself, the primary key's prior stored
value IS included in the aggregate total.  With "p" holding 4, "s1"
holding 3, key list ["p", "s1"], amount 1 and maximum 5: the early
check passes (4 + 1 ≤ 5), the mget sum counts "p" giving total
1 + (4 + 3) = 8 > 5, and the pass denies — although amount plus the
values of the keys other than "p" is 1 + 3 = 4 ≤ 5, so a total that
never counted the primary's prior value a second time would have
committed. -/
theorem incr_and_sum_double_count_counterexample :
    incr_and_sum
        (fun k => if k = "p" then some (Content.intVal 4, 50)
                  else if k = "s1" then some (Content.intVal 3, 50) else none)
        "p" (KeysArg.static ["p", "s1"]) 1 5 1000 =
      .ok ⟨false,
           fun k => if k = "p" then some (Content.intVal 4, 50)
                    else if k = "s1" then some (Content.intVal 3, 50) else none,
           0, true⟩ ∧
    sumCounters (["s1"].map
        (Store.get (fun k => if k = "p" then some (Content.intVal 4, 50)
                             else if k = "s1" then some (Content.intVal 3, 50) else none))) =
      .ok 3 ∧
    (1 : Int) + 3 ≤ 5 := by
  refine ⟨rfl, rfl, by norm_num⟩

/-- Claim C3 amended: the aggregate total sums the current values of
exactly the keys in the second-resolution key list.  When that list
does not contain the primary key, the primary's prior stored value does
not enter the total at all — replacing the primary's stored content
arbitrarily leaves the sum used in the bound check unchanged — and past
the early check the deny/commit decision is exactly whether
`amount + that sum` exceeds `maximum`.  When the list does contain the
primary key, its prior value is counted in the total (see the
counterexample). -/
theorem incr_and_sum_no_double_count (s : Store) (key : String) (keys : KeysArg)
    (amount maximum ttl current siblings : Int) (c : Content) (t2 : Int)
    (hk : key ∉ KeysArg.resolve keys 1)
    (hc : readInt s key = .ok current)
    (hs : sumCounters ((KeysArg.resolve keys 1).map (Store.get s)) = .ok siblings)
    (h1 : ¬ current + amount > maximum) :
    sumCounters ((KeysArg.resolve keys 1).map
        (Store.get (Store.set s key c t2))) = .ok siblings ∧
    incr_and_sum s key keys amount maximum ttl =
      (if amount + siblings > maximum then
        .ok ⟨false, s, (if keys.isCallable then 2 else 0), true⟩
       else
        .ok ⟨true, Store.set s key (Content.intVal (current + amount)) ttl,
             (if keys.isCallable then 2 else 0), true⟩) := by
  constructor
  · rw [sumCounters_set_not_mem s (KeysArg.resolve keys 1) key c t2 hk, hs]
  · rw [incr_and_sum_eq s key keys amount maximum ttl current siblings hc hs]
    simp [h1]

/-- Witness for C3: with "p" holding 4, "s1" holding 3 and key list
["s1"] (not containing "p"), amount 1, maximum 5: overwriting "p" with
malformed bytes leaves the mget sum at 3, and the pass commits since
1 + 3 ≤ 5. -/
theorem incr_and_sum_no_double_count_witness :
    sumCounters (["s1"].map
        (Store.get (Store.set
          (fun k => if k = "p" then some (Content.intVal 4, 50)
                    else if k = "s1" then some (Content.intVal 3, 50) else none)
          "p" Content.malformed 7))) = .ok 3 ∧
    incr_and_sum
        (fun k => if k = "p" then some (Content.intVal 4, 50)
                  else if k = "s1" then some (Content.intVal 3, 50) else none)
        "p" (KeysArg.static ["s1"]) 1 5 1000 =
      .ok ⟨true,
           Store.set
             (fun k => if k = "p" then some (Content.intVal 4, 50)
                       else if k = "s1" then some (Content.intVal 3, 50) else none)
             "p" (Content.intVal 5) 1000,
           0, true⟩ := by
  have h := incr_and_sum_no_double_count
    (fun k => if k = "p" then some (Content.intVal 4, 50)
              else if k = "s1" then some (Content.intVal 3, 50) else none)
    "p" (KeysArg.static ["s1"]) 1 5 1000 4 3 Content.malformed 7
    (by simp [KeysArg.resolve]) rfl rfl (by norm_num)
  refine ⟨h.1, ?_⟩
  rw [h.2]
  norm_num [KeysArg.isCallable]

/-- Claim C4 as stated is false at this input: the sibling-keys
provider IS invoked — once, to resolve the list passed to the watch —
even when the primary increment already exceeds `maximum`.  With "p"
holding 100, amount 1, maximum 10 and a callable provider, the pass
denies early without executing the sibling mget, but the provider
invocation count is 1, not 0, so a test double that fails when invoked
would fire. -/
theorem incr_and_sum_provider_counterexample :
    incr_and_sum (fun k => if k = "p" then some (Content.intVal 100, 50) else none)
        "p" (KeysArg.callable (fun _ => ["s1"])) 1 10 1000 =
      .ok ⟨false, fun k => if k = "p" then some (Content.intVal 100, 50) else none,
           1, false⟩ ∧
    (1 : Nat) ≠ 0 := by
  refine ⟨rfl, by norm_num⟩

/-- Claim C4 amended: on early rejection (primary value plus `amount`
exceeds `maximum`) one pass of `incr_and_sum` returns false with the
store unchanged and never executes the sibling mget, and the outcome is
independent of the provider resolutions and of the sibling values: with
a callable provider the result is exactly `⟨false, s, 1, false⟩` for
every provider function (so the provider is still invoked once, for the
watch list), and with a static list it is `⟨false, s, 0, false⟩` for
every list. -/
theorem incr_and_sum_early_rejection (s : Store) (key : String)
    (amount maximum ttl current : Int)
    (hc : readInt s key = .ok current) (h1 : current + amount > maximum) :
    (∀ f : Nat → List String,
      incr_and_sum s key (KeysArg.callable f) amount maximum ttl =
        .ok ⟨false, s, 1, false⟩) ∧
    (∀ ks : List String,
      incr_and_sum s key (KeysArg.static ks) amount maximum ttl =
        .ok ⟨false, s, 0, false⟩) := by
  constructor
  · intro f
    simpa [KeysArg.isCallable] using
      incr_and_sum_early s key (KeysArg.callable f) amount maximum ttl current hc h1
  · intro ks
    simpa [KeysArg.isCallable] using
      incr_and_sum_early s key (KeysArg.static ks) amount maximum ttl current hc h1

/-- Witness for C4: with "p" holding 100, amount 1 and maximum 10, the
early rejection fires for a concrete callable provider (with sibling
"s1" holding malformed bytes that are never read) and for a concrete
static list. -/
theorem incr_and_sum_early_rejection_witness :
    incr_and_sum
        (fun k => if k = "p" then some (Content.intVal 100, 50)
                  else if k = "s1" then some (Content.malformed, 50) else none)
        "p" (KeysArg.callable (fun _ => ["s1"])) 1 10 1000 =
      .ok ⟨false,
           fun k => if k = "p" then some (Content.intVal 100, 50)
                    else if k = "s1" then some (Content.malformed, 50) else none,
           1, false⟩ ∧
    incr_and_sum
        (fun k => if k = "p" then some (Content.intVal 100, 50)
                  else if k = "s1" then some (Content.malformed, 50) else none)
        "p" (KeysArg.static ["s1"]) 1 10 1000 =
      .ok ⟨false,
           fun k => if k = "p" then some (Content.intVal 100, 50)
                    else if k = "s1" then some (Content.malformed, 50) else none,
           0, false⟩ := by
  have h := incr_and_sum_early_rejection
    (fun k => if k = "p" then some (Content.intVal 100, 50)
              else if k = "s1" then some (Content.malformed, 50) else none)
    "p" 1 10 1000 100 rfl (by norm_num)
  exact ⟨h.1 (fun _ => ["s1"]), h.2 ["s1"]⟩

/-- Claim C6: every value written by a successful bounded operation
satisfies the bound checked in that operation — a true-returning `incr`
leaves the key holding a parsable value at most `maximum`, and a
true-returning `decr` leaves it holding at least `minimum`. -/
theorem success_within_bound (s : Store) (key : String)
    (amount maximum minimum ttl : Int) :
    (∀ s2, incr s key amount maximum ttl = .ok (true, s2) →
      ∃ v, Store.get s2 key = some (Content.intVal v) ∧ v ≤ maximum) ∧
    (∀ s2, decr s key amount minimum ttl = .ok (true, s2) →
      ∃ v, Store.get s2 key = some (Content.intVal v) ∧ minimum ≤ v) := by
  constructor <;> intro s2 h
  · cases hr : readInt s key with
    | error e =>
      rw [incr_error s key amount maximum ttl e hr] at h
      simp at h
    | ok current =>
      rw [incr_eq s key amount maximum ttl current hr] at h
      by_cases hb : current + amount > maximum
      · simp [hb] at h
      · simp [hb] at h
        rw [← h]
        exact ⟨current + amount, get_set_self s key (Content.intVal (current + amount)) ttl,
               by omega⟩
  · cases hr : readInt s key with
    | error e =>
      rw [decr_error s key amount minimum ttl e hr] at h
      simp at h
    | ok current =>
      rw [decr_eq s key amount minimum ttl current hr] at h
      by_cases hb : current - amount < minimum
      · simp [hb] at h
      · simp [hb] at h
        rw [← h]
        exact ⟨current - amount, get_set_self s key (Content.intVal (current - amount)) ttl,
               by omega⟩

/-- Witness for C6: on the empty store, `incr` of 2 under maximum 5
commits and the stored value 2 is at most 5; `decr` of 2 under minimum
-5 commits and the stored value -2 is at least -5. -/
theorem success_within_bound_witness :
    (∃ v, Store.get (Store.set (fun _ => none) "k" (Content.intVal 2) 1000) "k" =
      some (Content.intVal v) ∧ v ≤ 5) ∧
    (∃ v, Store.get (Store.set (fun _ => none) "k" (Content.intVal (-2)) 1000) "k" =
      some (Content.intVal v) ∧ (-5 : Int) ≤ v) := by
  have h := success_within_bound (fun _ => none) "k" 2 5 (-5) 1000
  constructor
  · exact h.1 (Store.set (fun _ => none) "k" (Content.intVal 2) 1000) (by norm_num [incr, readInt, Store.get])
  · exact h.2 (Store.set (fun _ => none) "k" (Content.intVal (-2)) 1000) (by norm_num [decr, readInt, Store.get])

/-- Claim C7: a bound violation in any of the three bounded operations
is signaled by a false return and leaves the store completely
unmutated — each deny path returns directly (before any write is
queued, and without re-entering the retry loop), so no key is written. -/
theorem deny_leaves_store_unchanged (s : Store) (key : String) (keys : KeysArg)
    (amount maximum minimum ttl : Int) :
    (∀ s2, incr s key amount maximum ttl = .ok (false, s2) → s2 = s) ∧
    (∀ s2, decr s key amount minimum ttl = .ok (false, s2) → s2 = s) ∧
    (∀ r : AggResult, incr_and_sum s key keys amount maximum ttl = .ok r →
      r.ret = false → r.store = s) := by
  refine ⟨?_, ?_, ?_⟩
  · intro s2 h
    cases hr : readInt s key with
    | error e =>
      rw [incr_error s key amount maximum ttl e hr] at h
      simp at h
    | ok current =>
      rw [incr_eq s key amount maximum ttl current hr] at h
      by_cases hb : current + amount > maximum
      · simp [hb] at h
        exact h.symm
      · simp [hb] at h
  · intro s2 h
    cases hr : readInt s key with
    | error e =>
      rw [decr_error s key amount minimum ttl e hr] at h
      simp at h
    | ok current =>
      rw [decr_eq s key amount minimum ttl current hr] at h
      by_cases hb : current - amount < minimum
      · simp [hb] at h
        exact h.symm
      · simp [hb] at h
  · intro r h hret
    cases hr : readInt s key with
    | error e =>
      rw [incr_and_sum_error s key keys amount maximum ttl e hr] at h
      simp at h
    | ok current =>
      by_cases hb : current + amount > maximum
      · rw [incr_and_sum_early s key keys amount maximum ttl current hr hb] at h
        simp at h
        rw [← h]
      · cases hsum : sumCounters ((KeysArg.resolve keys 1).map (Store.get s)) with
        | error e =>
          rw [incr_and_sum_sum_error s key keys amount maximum ttl current e hr hb hsum] at h
          simp at h
        | ok siblings =>
          rw [incr_and_sum_eq s key keys amount maximum ttl current siblings hr hsum] at h
          by_cases h2 : amount + siblings > maximum
          · simp [hb, h2] at h
            rw [← h]
          · simp [hb, h2] at h
            rw [← h] at hret
            simp at hret

/-- Witness for C7: with "k" holding 3, `incr` by 100 under maximum
10, `decr` by 100 under minimum 0, and `incr_and_sum` by 100 under
maximum 10 all deny and return the store unchanged. -/
theorem deny_leaves_store_unchanged_witness :
    ((fun k => if k = "k" then some (Content.intVal 3, 50) else none) : Store) =
      (fun k => if k = "k" then some (Content.intVal 3, 50) else none) ∧
    ((fun k => if k = "k" then some (Content.intVal 3, 50) else none) : Store) =
      (fun k => if k = "k" then some (Content.intVal 3, 50) else none) ∧
    AggResult.store ⟨false, fun k => if k = "k" then some (Content.intVal 3, 50) else none,
        0, false⟩ =
      (fun k => if k = "k" then some (Content.intVal 3, 50) else none) := by
  have h := deny_leaves_store_unchanged
    (fun k => if k = "k" then some (Content.intVal 3, 50) else none)
    "k" (KeysArg.static []) 100 10 0 1000
  refine ⟨h.1 (fun k => if k = "k" then some (Content.intVal 3, 50) else none) ?_,
          h.2.1 (fun k => if k = "k" then some (Content.intVal 3, 50) else none) ?_,
          h.2.2 ⟨false, fun k => if k = "k" then some (Content.intVal 3, 50) else none,
                 0, false⟩ ?_ rfl⟩
  · norm_num [incr, readInt, Store.get]
  · norm_num [decr, readInt, Store.get]
  · norm_num [incr_and_sum, readInt, Store.get, KeysArg.isCallable]

/-- Claim C8: unparsable stored bytes raise a propagated `ValueError`
rather than being silently coerced to zero: a malformed primary value
makes one pass of `incr`, `decr` and `incr_and_sum` return the error
(never a boolean result), and a malformed value under any key the
`incr_and_sum` mget reads (reached when the early rejection does not
fire) likewise makes the pass return the error. -/
theorem malformed_value_raises (s : Store) (key k2 : String) (keys : KeysArg)
    (amount maximum minimum ttl current : Int) :
    (Store.get s key = some Content.malformed →
      incr s key amount maximum ttl = .error () ∧
      decr s key amount minimum ttl = .error () ∧
      incr_and_sum s key keys amount maximum ttl = .error ()) ∧
    (readInt s key = .ok current → ¬ current + amount > maximum →
      k2 ∈ KeysArg.resolve keys 1 → Store.get s k2 = some Content.malformed →
      incr_and_sum s key keys amount maximum ttl = .error ()) := by
  constructor
  · intro hm
    have hr : readInt s key = .error () := by simp [readInt, hm]
    exact ⟨incr_error s key amount maximum ttl () hr,
           decr_error s key amount minimum ttl () hr,
           incr_and_sum_error s key keys amount maximum ttl () hr⟩
  · intro hc h1 hk hm
    exact incr_and_sum_sum_error s key keys amount maximum ttl current () hc h1
      (sumCounters_malformed s (KeysArg.resolve keys 1) k2 hk hm)

/-- Witness for C8: with "k" holding malformed bytes, `incr`, `decr`
and `incr_and_sum` on "k" all raise; and with "k" holding 0 and sibling
"m" holding malformed bytes, `incr_and_sum` of 1 under maximum 10 over
["m"] raises. -/
theorem malformed_value_raises_witness :
    (incr (fun k => if k = "k" then some (Content.malformed, 50) else none)
        "k" 1 10 1000 = .error () ∧
     decr (fun k => if k = "k" then some (Content.malformed, 50) else none)
        "k" 1 0 1000 = .error () ∧
     incr_and_sum (fun k => if k = "k" then some (Content.malformed, 50) else none)
        "k" (KeysArg.static []) 1 10 1000 = .error ()) ∧
    incr_and_sum
        (fun k => if k = "k" then some (Content.intVal 0, 50)
                  else if k = "m" then some (Content.malformed, 50) else none)
        "k" (KeysArg.static ["m"]) 1 10 1000 = .error () := by
  constructor
  · exact (malformed_value_raises
      (fun k => if k = "k" then some (Content.malformed, 50) else none)
      "k" "k" (KeysArg.static []) 1 10 0 1000 0).1 rfl
  · exact (malformed_value_raises
      (fun k => if k = "k" then some (Content.intVal 0, 50)
                else if k = "m" then some (Content.malformed, 50) else none)
      "k" "m" (KeysArg.static ["m"]) 1 10 0 1000 0).2 rfl (by norm_num)
      (by simp [KeysArg.resolve]) rfl

/-- Claim C9: `add` returns true exactly when the key was absent, in
which case it writes `value` with the given `ttl` and leaves every
other key unchanged; when the key already holds anything it returns
false and the store is untouched. -/
theorem add_if_absent (s : Store) (key : String) (value ttl : Int) :
    ((add s key value ttl).1 = true ↔ s key = none) ∧
    (s key = none →
      (add s key value ttl).2 key = some (Content.intVal value, ttl) ∧
      ∀ k2, k2 ≠ key → (add s key value ttl).2 k2 = s k2) ∧
    (s key ≠ none → (add s key value ttl).2 = s) := by
  refine ⟨?_, ?_, ?_⟩
  · cases hk : s key <;> simp [add, hk]
  · intro hk
    refine ⟨by simp [add, hk, Store.set], ?_⟩
    intro k2 hne
    simp [add, hk, Store.set, hne]
  · intro hk
    cases hs : s key with
    | none => exact absurd hs hk
    | some p => simp [add, hs]

/-- Witness for C9: on the empty store, `add` of 7 to "k" returns true
and writes the value with its TTL; repeating the `add` on the resulting
store returns false and leaves it unchanged. -/
theorem add_if_absent_witness :
    (add (fun _ => none) "k" 7 500).1 = true ∧
    (add (fun _ => none) "k" 7 500).2 "k" = some (Content.intVal 7, 500) ∧
    (add (Store.set (fun _ => none) "k" (Content.intVal 7) 500) "k" 9 800).1 = false := by
  have h1 := add_if_absent (fun _ => none) "k" 7 500
  have h2 := add_if_absent (Store.set (fun _ => none) "k" (Content.intVal 7) 500) "k" 9 800
  refine ⟨h1.1.mpr rfl, (h1.2.1 rfl).1, ?_⟩
  have : ¬ (Store.set (fun _ => none) "k" (Content.intVal 7) 500) "k" = none := by
    simp [Store.set]
  simpa using fun hcontra => this (h2.1.mp hcontra)

/-- Claim C10: `incr` enforces no lower bound and `decr` no upper
bound: one pass of `incr` commits `current + amount` whenever it is at
most `maximum`, however negative the result (e.g. with a negative
`amount`), and one pass of `decr` commits `current - amount` whenever
it is at least `minimum`, however large. -/
theorem no_opposite_bound (s : Store) (key : String)
    (amount maximum minimum ttl current : Int) (h : readInt s key = .ok current) :
    (current + amount ≤ maximum →
      incr s key amount maximum ttl =
        .ok (true, Store.set s key (Content.intVal (current + amount)) ttl)) ∧
    (minimum ≤ current - amount →
      decr s key amount minimum ttl =
        .ok (true, Store.set s key (Content.intVal (current - amount)) ttl)) := by
  constructor
  · intro hle
    rw [incr_eq s key amount maximum ttl current h, if_neg (not_lt.mpr hle)]
  · intro hle
    rw [decr_eq s key amount minimum ttl current h, if_neg (not_lt.mpr hle)]

/-- Witness for C10: on the empty store, `incr` by -100 under maximum
5 commits and stores -100 (far below zero), and `decr` by -100 under
minimum 0 commits and stores 100 (far above the maximum-free top). -/
theorem no_opposite_bound_witness :
    incr (fun _ => none) "k" (-100) 5 1000 =
      .ok (true, Store.set (fun _ => none) "k" (Content.intVal (-100)) 1000) ∧
    decr (fun _ => none) "k" (-100) 0 1000 =
      .ok (true, Store.set (fun _ => none) "k" (Content.intVal 100) 1000) := by
  have h := no_opposite_bound (fun _ => none) "k" (-100) 5 0 1000 0 rfl
  constructor
  · have h1 := h.1 (by norm_num)
    simpa using h1
  · have h2 := h.2 (by norm_num)
    simpa using h2

end RemouladeRedis
